import Mathlib

/-
Shallow embedding of the Dependency Consistency Engine of
`monorepo-dep-checker` (src/lib.ts, the revision imported by the test
suite and built by the vite config).

Manifests are modelled as records of association lists (JSON objects);
JavaScript object spread, truthy lookups and `Object.entries` iteration
are modelled explicitly.  The behaviour of the external `semver`
package (v7, as pinned by package.json) is embedded from its published
semantics: `semver.valid` via a parser of the anchored FULL grammar
(optional leading `v`, numeric identifiers without leading zeros,
prerelease and build identifier rules, the 256-character cap and the
2^53-1 numeric cap), and `semver.diff` via `compare`/`comparePre`.
Numeric prerelease identifiers at or above 2^53-1 are compared exactly
as big naturals rather than as IEEE doubles; this is the only place the
embedding deviates from the JavaScript runtime, and no theorem below
depends on it.
-/

namespace DepChecker

/-! ## JavaScript string primitives used by the tool -/

/-- Characters matched by the character class of the regexes
`/^[~^<>=]+\s*/` used in `getSemverVersion` and `updateDependencies`. -/
def isOpChar (c : Char) : Bool :=
  c == '~' || c == '^' || c == '<' || c == '>' || c == '='

/-- Characters matched by the JavaScript regex class `\s` (which is also
the set removed by `String.prototype.trim`). -/
def isJsSpace (c : Char) : Bool :=
  let n := c.toNat
  n == 32 || n == 9 || n == 10 || n == 11 || n == 12 || n == 13 ||
  n == 0xa0 || n == 0x1680 || (0x2000 ≤ n && n ≤ 0x200a) ||
  n == 0x2028 || n == 0x2029 || n == 0x202f || n == 0x205f ||
  n == 0x3000 || n == 0xfeff

/-- List-level model of `s.replace(/^[~^<>=]+\s*/g, "")`: the anchored
regex matches at most once, removing a nonempty maximal run of operator
characters followed by a maximal run of whitespace. -/
def stripOpsRun (l : List Char) : List Char :=
  match l with
  | [] => []
  | c :: cs =>
    if isOpChar c then ((c :: cs).dropWhile isOpChar).dropWhile isJsSpace
    else c :: cs

/-- List-level model of `s.match(/^[~^<>=]+\s*/)?.[0] || ""`. -/
def leadOpsRun (l : List Char) : List Char :=
  match l with
  | [] => []
  | c :: cs =>
    if isOpChar c then
      ((c :: cs).takeWhile isOpChar) ++
        (((c :: cs).dropWhile isOpChar).takeWhile isJsSpace)
    else []

/-- Model of `version.replace(/^[~^<>=]+\s*/g, "")`. -/
def replaceLeadingOps (s : String) : String := ⟨stripOpsRun s.data⟩

/-- Model of `version.match(/^[~^<>=]+\s*/)?.[0] || ""`. -/
def leadOps (s : String) : String := ⟨leadOpsRun s.data⟩

/-- Model of JavaScript `s.startsWith(p)`. -/
def jsStartsWith (s p : String) : Bool := p.data.isPrefixOf s.data

/-- Model of JavaScript `String.prototype.trim`. -/
def jsTrim (s : String) : String :=
  ⟨((s.data.dropWhile isJsSpace).reverse.dropWhile isJsSpace).reverse⟩

/-! ## JavaScript objects as association lists

A `Record<string, string>` is an association list.  `jlookup` models
property lookup; it takes the LAST binding for a key so that building a
list by plain concatenation has the same lookup semantics as JavaScript
property assignment.  `setKey`/`spread` model `{...a, ...b}` exactly,
including the rule that an overridden key keeps its original position
while taking the later value. -/

def jlookup (l : List (String × String)) (k : String) : Option String :=
  (l.reverse.find? (fun p => p.1 = k)).map (fun p => p.2)

/-- Property assignment `o[k] = v` on an object in entry-list form. -/
def setKey (m : List (String × String)) (k v : String) :
    List (String × String) :=
  if m.any (fun p => p.1 = k) then
    m.map (fun p => if p.1 = k then (k, v) else p)
  else m ++ [(k, v)]

/-- Object spread `{...a, ...b}` in entry-list form. -/
def spread (a b : List (String × String)) : List (String × String) :=
  b.foldl (fun acc p => setKey acc p.1 p.2) a

/-- Truthiness of a JavaScript property access that yields either
`undefined` or a string: `undefined` and `""` are falsy. -/
def optTruthy : Option String → Bool
  | none => false
  | some s => s ≠ ""

/-! ## Manifests -/

/-- A parsed `package.json`, with absent dependency sections modelled as
empty lists (spreading `undefined` contributes nothing). -/
structure Manifest where
  name : String
  dependencies : List (String × String)
  devDependencies : List (String × String)
  peerDependencies : List (String × String)
deriving DecidableEq

/-- The merged map `{...m.dependencies, ...m.devDependencies,
...m.peerDependencies}`, built both as `appDeps` in
`checkMissingDependencies`, as `allWorkspaceDeps` in
`shouldIncludeDependency`, and as `appDependencies` in
`updateDependencies`. -/
def mergedDeps (m : Manifest) : List (String × String) :=
  spread (spread m.dependencies m.devDependencies) m.peerDependencies

inductive DepSection where
  | dependencies
  | devDependencies
  | peerDependencies
deriving DecidableEq

def secEntries (m : Manifest) : DepSection → List (String × String)
  | .dependencies => m.dependencies
  | .devDependencies => m.devDependencies
  | .peerDependencies => m.peerDependencies

def secName : DepSection → String
  | .dependencies => "dependencies"
  | .devDependencies => "devDependencies"
  | .peerDependencies => "peerDependencies"

/-! ## The semver model (`semver.valid`, `semver.diff`) -/

def MAX_SAFE_INTEGER : Nat := 9007199254740991

def MAX_LENGTH : Nat := 256

def natOfDigits (l : List Char) : Nat :=
  l.foldl (fun n c => 10 * n + (c.toNat - 48)) 0

/-- The regex piece `0|[1-9]\d*`: digits with no leading zero. -/
def numericIdentOk : List Char → Bool
  | [] => false
  | ['0'] => true
  | c :: cs => c ≠ '0' && (c :: cs).all (·.isDigit)

/-- Characters allowed in prerelease and build identifiers. -/
def idCharOk (c : Char) : Bool :=
  c.isDigit || ('a' ≤ c && c ≤ 'z') || ('A' ≤ c && c ≤ 'Z') || c == '-'

/-- A prerelease identifier: alphanumeric/hyphen, nonempty, and if fully
numeric it must not have a leading zero. -/
def preIdOk (l : List Char) : Bool :=
  !l.isEmpty && l.all idCharOk &&
    (l.any (fun c => !c.isDigit) || numericIdentOk l)

/-- A build identifier: `[a-zA-Z0-9-]+`. -/
def buildIdOk (l : List Char) : Bool :=
  !l.isEmpty && l.all idCharOk

def splitDotsGo : List Char → List Char → List (List Char)
  | [], acc => [acc.reverse]
  | c :: cs, acc =>
    if c = '.' then acc.reverse :: splitDotsGo cs []
    else splitDotsGo cs (c :: acc)

def splitDots (l : List Char) : List (List Char) := splitDotsGo l []

/-- A parsed semantic version.  Build metadata is validated during
parsing but not retained, since precedence ignores it. -/
structure SemVer where
  major : Nat
  minor : Nat
  patch : Nat
  prerelease : List String
deriving DecidableEq

/-- Parse one numeric identifier off the front of the input, enforcing
the `> Number.MAX_SAFE_INTEGER` rejection of the SemVer constructor. -/
def parseNumId (l : List Char) : Option (Nat × List Char) :=
  if numericIdentOk (l.takeWhile (·.isDigit)) &&
      natOfDigits (l.takeWhile (·.isDigit)) ≤ MAX_SAFE_INTEGER then
    some (natOfDigits (l.takeWhile (·.isDigit)), l.dropWhile (·.isDigit))
  else none

def parsePre (l : List Char) : Option (List String) :=
  if (splitDots l).all preIdOk then
    some ((splitDots l).map (fun cs => ⟨cs⟩))
  else none

def parseBuild (l : List Char) : Bool :=
  (splitDots l).all buildIdOk

/-- Parse what follows `major.minor.patch`: an optional `-prerelease`
and an optional `+build`. -/
def parseRest (l : List Char) : Option (List String) :=
  match l with
  | [] => some []
  | '-' :: rest =>
    match rest.dropWhile (fun c => c ≠ '+') with
    | [] => parsePre (rest.takeWhile (fun c => c ≠ '+'))
    | _ :: build =>
      if parseBuild build then parsePre (rest.takeWhile (fun c => c ≠ '+'))
      else none
  | '+' :: build => if parseBuild build then some [] else none
  | _ => none

def parseMainVer (l : List Char) : Option SemVer :=
  match parseNumId l with
  | none => none
  | some (maj, r1) =>
    match r1 with
    | '.' :: r1' =>
      match parseNumId r1' with
      | none => none
      | some (mino, r2) =>
        match r2 with
        | '.' :: r2' =>
          match parseNumId r2' with
          | none => none
          | some (pat, r3) =>
            match parseRest r3 with
            | none => none
            | some pre => some ⟨maj, mino, pat, pre⟩
        | _ => none
    | _ => none

/-- Model of `semver.parse` on a string argument: length cap, trim, the
anchored FULL regex with its optional leading `v`, and the numeric caps
of the `SemVer` constructor. -/
def parseSemver (s : String) : Option SemVer :=
  if s.data.length > MAX_LENGTH then none
  else
    match (jsTrim s).data with
    | 'v' :: rest => parseMainVer rest
    | l => parseMainVer l

/-- Model of truthiness of `semver.valid`. -/
def semverValid (s : String) : Bool := (parseSemver s).isSome

/-! ## semver precedence (`compare`) and `semver.diff` -/

def cmpNat (a b : Nat) : Ordering :=
  if a < b then .lt else if b < a then .gt else .eq

/-- Code-unit lexicographic string order, as used by `a < b` on
JavaScript strings (identifiers here are ASCII). -/
def cmpCharList : List Char → List Char → Ordering
  | [], [] => .eq
  | [], _ :: _ => .lt
  | _ :: _, [] => .gt
  | a :: as, b :: bs =>
    if a.toNat < b.toNat then .lt
    else if b.toNat < a.toNat then .gt
    else cmpCharList as bs

/-- `compareIdentifiers` of the semver package: numeric identifiers
compare numerically and sort before non-numeric ones, which compare as
strings. -/
def compareIdentStr (s t : String) : Ordering :=
  if s.data.all (·.isDigit) then
    if t.data.all (·.isDigit) then cmpNat (natOfDigits s.data) (natOfDigits t.data)
    else .lt
  else if t.data.all (·.isDigit) then .gt
  else cmpCharList s.data t.data

/-- The identifier-by-identifier loop of `SemVer.comparePre`: a shorter
list that is a proper prefix sorts first. -/
def cmpPreLists : List String → List String → Ordering
  | [], [] => .eq
  | [], _ :: _ => .lt
  | _ :: _, [] => .gt
  | a :: as, b :: bs => if a = b then cmpPreLists as bs else compareIdentStr a b

/-- `SemVer.comparePre`: a version with a prerelease sorts before the
same version without one. -/
def comparePre (a b : List String) : Ordering :=
  if !a.isEmpty && b.isEmpty then .lt
  else if a.isEmpty && !b.isEmpty then .gt
  else if a.isEmpty && b.isEmpty then .eq
  else cmpPreLists a b

/-- `SemVer.compareMain`. -/
def compareMain (a b : SemVer) : Ordering :=
  (cmpNat a.major b.major).then ((cmpNat a.minor b.minor).then (cmpNat a.patch b.patch))

/-- `SemVer.compare`: main part, then prerelease part. -/
def compareSemVer (a b : SemVer) : Ordering :=
  (compareMain a b).then (comparePre a.prerelease b.prerelease)

/-- The body of `semver.diff` after the high/low versions have been
selected; `v1`/`v2` are the original argument order. -/
def diffFields (v1 v2 high low : SemVer) : Option String :=
  if low.prerelease ≠ [] ∧ high.prerelease = [] then
    if low.patch = 0 ∧ low.minor = 0 then some "major"
    else if high.patch ≠ 0 then some "patch"
    else if high.minor ≠ 0 then some "minor"
    else some "major"
  else
    if v1.major ≠ v2.major then
      some ((if high.prerelease ≠ [] then "pre" else "") ++ "major")
    else if v1.minor ≠ v2.minor then
      some ((if high.prerelease ≠ [] then "pre" else "") ++ "minor")
    else if v1.patch ≠ v2.patch then
      some ((if high.prerelease ≠ [] then "pre" else "") ++ "patch")
    else some "prerelease"

/-- Model of `semver.diff` (v7): `none` for equal versions, otherwise a
release-type string. -/
def semverDiff (a b : SemVer) : Option String :=
  if compareSemVer a b = .eq then none
  else if compareSemVer a b = .gt then diffFields a b a b
  else diffFields a b b a

/-! ## DependencyChecker: version handling -/

/-- `isWorkspaceDep`: the raw string is a workspace declaration iff it
starts with the workspace protocol or is the bare wildcard. -/
def isWorkspaceDep (version : String) : Bool :=
  jsStartsWith version "workspace:" || version = "*"

/-- `getSemverVersion`: normalize a raw version string to a comparable
version string, or `none`. -/
def getSemverVersion (version : String) : Option String :=
  if jsStartsWith version "workspace:" then
    if (⟨version.data.drop 10⟩ : String) = "*" then none
    else if semverValid ⟨version.data.drop 10⟩ then some ⟨version.data.drop 10⟩
    else none
  else if version = "*" ∨ version = "latest" then none
  else
    if semverValid (replaceLeadingOps version) then some (replaceLeadingOps version)
    else none

/-- `compareDependencyVersions`: `"unknown"` when either normalized
side is falsy (`if (!v1 || !v2)`), otherwise `semver.diff` re-parses
both strings; a `null` result or a thrown parse error also yields
`"unknown"`. -/
def compareDependencyVersions (version1 version2 : String) : String :=
  if optTruthy (getSemverVersion version1) = false ∨
      optTruthy (getSemverVersion version2) = false then "unknown"
  else
    match parseSemver ((getSemverVersion version1).getD ""),
          parseSemver ((getSemverVersion version2).getD "") with
    | some s1, some s2 => (semverDiff s1 s2).getD "unknown"
    | _, _ => "unknown"

/-! ## DependencyChecker: missing/extra analysis -/

/-- `shouldIncludeDependency`; `ws` is the workspace-package name set
built by `findWorkspacePackages` (the names of the scanned package
manifests). -/
def shouldIncludeDependency (ws : List String) (depName version : String)
    (packageJson : Manifest) : Bool :=
  if isWorkspaceDep version then false
  else if ws.contains depName then false
  else !((mergedDeps packageJson).any
    (fun p => p.1 = depName && isWorkspaceDep p.2))

structure MissingDepsInfo where
  missing : List (String × String)
  extraDeps : List (String × String)
deriving DecidableEq

/-- The per-package body of `checkMissingDependencies`: for one non-root
manifest `p`, the `missing` and `extraDeps` lists that get reported.
`appDeps` is the root's merged map (`mergedDeps root`, which in this
revision spreads the root's devDependencies as well); `packageDeps` is
`{...p.dependencies, ...p.peerDependencies}`. -/
def packageMissingInfo (root : Manifest) (others : List Manifest)
    (p : Manifest) : MissingDepsInfo :=
  { missing := (spread p.dependencies p.peerDependencies).filter (fun e =>
      (!optTruthy (jlookup (mergedDeps root) e.1) &&
        shouldIncludeDependency (others.map (fun m => m.name)) e.1 e.2 p) ||
      (optTruthy (jlookup p.peerDependencies e.1) &&
        !optTruthy (jlookup (mergedDeps root) e.1)))
    extraDeps := (mergedDeps root).filter (fun e =>
      !optTruthy (jlookup (spread p.dependencies p.peerDependencies) e.1) &&
        shouldIncludeDependency (others.map (fun m => m.name)) e.1 e.2 root) }

/-! ## DependencyChecker: updateDependencies -/

structure DependencyUpdate where
  pkg : String
  dependency : String
  fromV : String
  toV : String
  type : String
deriving DecidableEq

/-- The entry rewrite performed by one iteration of the
`Object.entries(packageJson[section]).forEach` loop of
`updateDependencySection`: entries starting with the workspace protocol
are skipped, then the truthy root lookup, the cleaned-version
comparison, and the guarded mutation. -/
def updEntry (dryRun : Bool) (appDeps : List (String × String))
    (e : String × String) : String × String :=
  if jsStartsWith e.2 "workspace:" then e
  else if optTruthy (jlookup appDeps e.1) then
    if replaceLeadingOps e.2 = replaceLeadingOps ((jlookup appDeps e.1).getD "")
    then e
    else if dryRun then e
    else (e.1, leadOps e.2 ++ replaceLeadingOps ((jlookup appDeps e.1).getD ""))
  else e

/-- The update record pushed by the same loop iteration; the push is
unconditional in the source (only the mutation is guarded by `dryRun`),
so this does not depend on the dry-run flag. -/
def updRecord (appDeps : List (String × String)) (pkgName tyName : String)
    (e : String × String) : Option DependencyUpdate :=
  if jsStartsWith e.2 "workspace:" then none
  else if optTruthy (jlookup appDeps e.1) then
    if replaceLeadingOps e.2 = replaceLeadingOps ((jlookup appDeps e.1).getD "")
    then none
    else some ⟨pkgName, e.1, e.2,
      leadOps e.2 ++ replaceLeadingOps ((jlookup appDeps e.1).getD ""), tyName⟩
  else none

/-- `updateDependencySection` over one dependency section. -/
def updateDependencySection (dryRun : Bool) (appDeps : List (String × String))
    (pkgName tyName : String) (entries : List (String × String)) :
    List (String × String) × List DependencyUpdate :=
  (entries.map (updEntry dryRun appDeps),
   entries.filterMap (updRecord appDeps pkgName tyName))

/-- Processing of one non-root manifest by `updateDependencies`: all
three sections in source order, and the manifest as it stands after the
run (written back only when not in dry-run mode and some update was
made; with no updates the file keeps its original content, which
coincides with the unchanged record). -/
def updateManifest (dryRun : Bool) (appDeps : List (String × String))
    (m : Manifest) : Manifest × List DependencyUpdate :=
  (⟨m.name,
    (updateDependencySection dryRun appDeps m.name "dependencies" m.dependencies).1,
    (updateDependencySection dryRun appDeps m.name "devDependencies" m.devDependencies).1,
    (updateDependencySection dryRun appDeps m.name "peerDependencies" m.peerDependencies).1⟩,
   (updateDependencySection dryRun appDeps m.name "dependencies" m.dependencies).2 ++
   (updateDependencySection dryRun appDeps m.name "devDependencies" m.devDependencies).2 ++
   (updateDependencySection dryRun appDeps m.name "peerDependencies" m.peerDependencies).2)

/-- `updateDependencies`: every non-root manifest is processed against
the root's merged dependency map; returns the manifest states after the
run and the collected update records. -/
def updateDependencies (dryRun : Bool) (root : Manifest)
    (others : List Manifest) : List Manifest × List DependencyUpdate :=
  (others.map (fun m => (updateManifest dryRun (mergedDeps root) m).1),
   (others.map (fun m => (updateManifest dryRun (mergedDeps root) m).2)).flatten)

/-! ## Lemmas about object lookup and spread -/

theorem jlookup_nil (k : String) : jlookup [] k = none := rfl

theorem jlookup_cons (k0 v0 k : String) (rest : List (String × String)) :
    jlookup ((k0, v0) :: rest) k =
      match jlookup rest k with
      | some w => some w
      | none => if k0 = k then some v0 else none := by
  unfold jlookup
  rw [List.reverse_cons, List.find?_append]
  cases h : (rest.reverse.find? (fun p => p.1 = k)) with
  | some p => simp
  | none =>
    by_cases h0 : k0 = k
    · simp [List.find?_cons, h0]
    · simp [List.find?_cons, h0]

theorem jlookup_eq_none_iff (l : List (String × String)) (k : String) :
    jlookup l k = none ↔ ∀ p ∈ l, p.1 ≠ k := by
  unfold jlookup
  rw [Option.map_eq_none', List.find?_eq_none]
  simp

theorem jlookup_mem {l : List (String × String)} {k v : String}
    (h : jlookup l k = some v) : (k, v) ∈ l := by
  unfold jlookup at h
  rw [Option.map_eq_some'] at h
  obtain ⟨p, hp, rfl⟩ := h
  have hmem : p ∈ l := List.mem_reverse.mp (List.mem_of_find?_eq_some hp)
  have hkey : p.1 = k := by
    have := List.find?_some hp
    simpa using this
  obtain ⟨pk, pv⟩ := p
  obtain rfl : pk = k := hkey
  exact hmem

theorem jlookup_append_unit (m : List (String × String)) (k v : String) :
    jlookup (m ++ [(k, v)]) k = some v := by
  unfold jlookup
  rw [List.reverse_append]
  simp [List.find?_cons]

theorem setKey_eq_of_no_key {m : List (String × String)} {k : String} (v : String)
    (h : ∀ p ∈ m, p.1 ≠ k) :
    m.map (fun p => if p.1 = k then (k, v) else p) = m := by
  induction m with
  | nil => rfl
  | cons p rest ih =>
    simp only [List.map_cons, if_neg (h p (List.mem_cons_self p rest)),
      List.cons.injEq, true_and]
    exact ih (fun q hq => h q (List.mem_cons_of_mem p hq))

theorem jlookup_map_setKey (m : List (String × String)) (k v : String)
    (hany : m.any (fun p => p.1 = k) = true) :
    jlookup (m.map (fun p => if p.1 = k then (k, v) else p)) k = some v := by
  induction m with
  | nil => simp at hany
  | cons p rest ih =>
    obtain ⟨k0, v0⟩ := p
    by_cases h0 : k0 = k
    · simp only [List.map_cons, if_pos h0]
      rw [jlookup_cons]
      by_cases hr : rest.any (fun p => p.1 = k) = true
      · rw [ih hr]
      · have hnone : ∀ p ∈ rest, p.1 ≠ k := by
          intro q hq
          intro hc
          exact hr (List.any_eq_true.mpr ⟨q, hq, by simp [hc]⟩)
        rw [setKey_eq_of_no_key v hnone, (jlookup_eq_none_iff rest k).mpr hnone]
        simp
    · have hr : rest.any (fun p => p.1 = k) = true := by
        rcases List.any_eq_true.mp hany with ⟨q, hq, hqk⟩
        rcases List.mem_cons.mp hq with rfl | hq'
        · exact absurd (by simpa using hqk) h0
        · exact List.any_eq_true.mpr ⟨q, hq', hqk⟩
      simp only [List.map_cons, if_neg h0]
      rw [jlookup_cons, ih hr]

theorem jlookup_setKey_self (m : List (String × String)) (k v : String) :
    jlookup (setKey m k v) k = some v := by
  unfold setKey
  by_cases hany : m.any (fun p => p.1 = k) = true
  · rw [if_pos hany]
    exact jlookup_map_setKey m k v hany
  · rw [if_neg hany]
    exact jlookup_append_unit m k v

theorem jlookup_map_setKey_ne (m : List (String × String)) {k k' : String} (v : String)
    (h : k' ≠ k) :
    jlookup (m.map (fun p => if p.1 = k then (k, v) else p)) k' = jlookup m k' := by
  induction m with
  | nil => rfl
  | cons p rest ih =>
    obtain ⟨k0, v0⟩ := p
    by_cases h0 : k0 = k
    · simp only [List.map_cons, if_pos h0]
      rw [jlookup_cons, jlookup_cons, ih]
      cases jlookup rest k' with
      | some w => rfl
      | none =>
        have hk : k ≠ k' := fun hc => h hc.symm
        have hk0 : k0 ≠ k' := h0 ▸ hk
        simp [hk, hk0]
    · simp only [List.map_cons, if_neg h0]
      rw [jlookup_cons, jlookup_cons, ih]

theorem jlookup_setKey_ne (m : List (String × String)) {k k' : String} (v : String)
    (h : k' ≠ k) : jlookup (setKey m k v) k' = jlookup m k' := by
  unfold setKey
  by_cases hany : m.any (fun p => p.1 = k) = true
  · rw [if_pos hany]
    exact jlookup_map_setKey_ne m v h
  · rw [if_neg hany]
    unfold jlookup
    rw [List.reverse_append]
    simp only [List.reverse_cons, List.reverse_nil, List.nil_append,
      List.singleton_append, List.find?_cons]
    have : ¬((k, v).1 = k') := fun hc => h (by simpa using hc.symm)
    simp [this]

theorem jlookup_spread (a b : List (String × String)) (k : String) :
    jlookup (spread a b) k =
      match jlookup b k with
      | some w => some w
      | none => jlookup a k := by
  induction b generalizing a with
  | nil => simp [spread, jlookup_nil]
  | cons p bs ih =>
    obtain ⟨k0, v0⟩ := p
    show jlookup (spread (setKey a k0 v0) bs) k = _
    rw [ih, jlookup_cons]
    cases hbs : jlookup bs k with
    | some w => rfl
    | none =>
      by_cases h0 : k0 = k
      · subst h0
        simp [jlookup_setKey_self]
      · have : k ≠ k0 := fun hc => h0 hc.symm
        simp [h0, jlookup_setKey_ne a v0 this]

theorem mem_setKey_self {m : List (String × String)} {k : String} (v : String) :
    (k, v) ∈ setKey m k v := by
  unfold setKey
  by_cases hany : m.any (fun p => p.1 = k) = true
  · rw [if_pos hany]
    obtain ⟨p, hp, hpk⟩ := List.any_eq_true.mp hany
    simp only [decide_eq_true_eq] at hpk
    exact List.mem_map.mpr ⟨p, hp, by simp [hpk]⟩
  · rw [if_neg hany]
    simp

theorem mem_setKey_ne {m : List (String × String)} {k' v' k : String} (v : String)
    (hm : (k', v') ∈ m) (h : k' ≠ k) : (k', v') ∈ setKey m k v := by
  unfold setKey
  by_cases hany : m.any (fun p => p.1 = k) = true
  · rw [if_pos hany]
    refine List.mem_map.mpr ⟨(k', v'), hm, ?_⟩
    simp [h]
  · rw [if_neg hany]
    exact List.mem_append_left _ hm

theorem mem_spread_left_of_none {a b : List (String × String)} {k v : String}
    (hm : (k, v) ∈ a) (hb : jlookup b k = none) : (k, v) ∈ spread a b := by
  induction b generalizing a with
  | nil => exact hm
  | cons p bs ih =>
    obtain ⟨k0, v0⟩ := p
    rw [jlookup_cons] at hb
    cases hbs : jlookup bs k with
    | some w => rw [hbs] at hb; simp at hb
    | none =>
      rw [hbs] at hb
      have h0 : k0 ≠ k := by
        intro hc; rw [if_pos hc] at hb; simp at hb
      show (k, v) ∈ spread (setKey a k0 v0) bs
      exact ih (mem_setKey_ne v0 hm (fun hc => h0 hc.symm)) hbs

theorem mem_spread_right {b : List (String × String)} {k v : String}
    (a : List (String × String)) (h : jlookup b k = some v) :
    (k, v) ∈ spread a b := by
  induction b generalizing a with
  | nil => simp [jlookup_nil] at h
  | cons p bs ih =>
    obtain ⟨k0, v0⟩ := p
    rw [jlookup_cons] at h
    cases hbs : jlookup bs k with
    | some w =>
      rw [hbs] at h
      obtain rfl : w = v := by simpa using h
      exact ih _ hbs
    | none =>
      rw [hbs] at h
      by_cases h0 : k0 = k
      · rw [if_pos h0] at h
        have hv : v0 = v := by simpa using h
        show (k, v) ∈ spread (setKey a k0 v0) bs
        subst hv
        subst h0
        exact mem_spread_left_of_none (mem_setKey_self v0) hbs
      · rw [if_neg h0] at h
        simp at h

/-! ## Lemmas about the range-operator stripping -/

/-- The string, after one anchored strip, begins with neither an
operator character nor whitespace.  All ordinary version strings
satisfy this; it is the side condition under which re-stripping an
updated entry is stable. -/
def noLeadOpSpace (s : String) : Bool :=
  match s.data with
  | [] => true
  | c :: _ => !(isOpChar c || isJsSpace c)

theorem isOpChar_isJsSpace_false {c : Char} (h : isOpChar c = true) :
    isJsSpace c = false := by
  unfold isOpChar at h
  simp only [Bool.or_eq_true, beq_iff_eq] at h
  rcases h with ((((rfl | rfl) | rfl) | rfl) | rfl) <;> decide

theorem dropWhile_append_of_all {p : Char → Bool} {l1 : List Char}
    (l2 : List Char) (h : ∀ x ∈ l1, p x = true) :
    List.dropWhile p (l1 ++ l2) = List.dropWhile p l2 := by
  induction l1 with
  | nil => rfl
  | cons c cs ih =>
    rw [List.cons_append, List.dropWhile_cons,
      if_pos (h c (List.mem_cons_self c cs))]
    exact ih (fun x hx => h x (List.mem_cons_of_mem c hx))

theorem dropWhile_eq_self_of_head {p : Char → Bool} {l : List Char}
    (h : ∀ c, l.head? = some c → p c = false) :
    List.dropWhile p l = l := by
  cases l with
  | nil => rfl
  | cons c cs => rw [List.dropWhile_cons, if_neg (by simp [h c rfl])]

theorem string_mk_append (a b : List Char) :
    (⟨a⟩ : String) ++ (⟨b⟩ : String) = ⟨a ++ b⟩ := rfl

theorem leadOpsRun_append_stripOpsRun (l : List Char) :
    leadOpsRun l ++ stripOpsRun l = l := by
  cases l with
  | nil => rfl
  | cons c cs =>
    simp only [leadOpsRun, stripOpsRun]
    by_cases hop : isOpChar c = true
    · simp only [if_pos hop]
      rw [List.append_assoc, List.takeWhile_append_dropWhile,
        List.takeWhile_append_dropWhile]
    · simp only [if_neg hop, List.nil_append]

theorem leadOps_append_strip (s : String) :
    leadOps s ++ replaceLeadingOps s = s := by
  obtain ⟨l⟩ := s
  show (⟨leadOpsRun l⟩ : String) ++ (⟨stripOpsRun l⟩ : String) = ⟨l⟩
  rw [string_mk_append]
  exact congrArg String.mk (leadOpsRun_append_stripOpsRun l)

theorem stripOpsRun_all_append {T S a : List Char}
    (hT : ∀ x ∈ T, isOpChar x = true)
    (hS : ∀ x ∈ S, isJsSpace x = true)
    (hTne : T ≠ [])
    (ha : a = [] ∨ ∀ c, a.head? = some c → (isOpChar c || isJsSpace c) = false) :
    stripOpsRun (T ++ (S ++ a)) = a := by
  cases T with
  | nil => exact absurd rfl hTne
  | cons c T' =>
    have hop : isOpChar c = true := hT c (List.mem_cons_self c T')
    simp only [List.cons_append, stripOpsRun, if_pos hop]
    rw [show c :: (T' ++ (S ++ a)) = (c :: T') ++ (S ++ a) from rfl,
      dropWhile_append_of_all _ hT]
    have h2 : List.dropWhile isOpChar (S ++ a) = S ++ a := by
      apply dropWhile_eq_self_of_head
      intro x hx
      cases S with
      | nil =>
        simp only [List.nil_append] at hx
        rcases ha with rfl | ha
        · simp at hx
        · exact (Bool.or_eq_false_iff.mp (ha x hx)).1
      | cons s0 ss =>
        simp only [List.cons_append, List.head?_cons, Option.some.injEq] at hx
        rw [hx.symm]
        by_cases hc : isOpChar s0 = true
        · exact absurd (hS s0 (List.mem_cons_self s0 ss))
            (by simp [isOpChar_isJsSpace_false hc])
        · simpa using hc
    rw [h2, dropWhile_append_of_all _ hS]
    rcases ha with rfl | ha
    · rfl
    · exact dropWhile_eq_self_of_head
        (fun x hx => (Bool.or_eq_false_iff.mp (ha x hx)).2)

theorem stripOpsRun_leadOpsRun_append {l a : List Char}
    (ha : a = [] ∨ ∀ c, a.head? = some c → (isOpChar c || isJsSpace c) = false) :
    stripOpsRun (leadOpsRun l ++ a) = a := by
  have hstrip : stripOpsRun a = a := by
    rcases ha with rfl | ha
    · rfl
    · cases a with
      | nil => rfl
      | cons c cs =>
        simp only [stripOpsRun]
        have := ha c rfl
        simp only [Bool.or_eq_false_iff] at this
        rw [if_neg (by simp [this.1])]
  cases l with
  | nil => simpa [leadOpsRun] using hstrip
  | cons c cs =>
    simp only [leadOpsRun]
    by_cases hop : isOpChar c = true
    · simp only [if_pos hop]
      have htake : ∀ x ∈ (c :: cs).takeWhile isOpChar, isOpChar x = true :=
        fun x hx => List.mem_takeWhile_imp hx
      have hsp : ∀ x ∈ ((c :: cs).dropWhile isOpChar).takeWhile isJsSpace,
          isJsSpace x = true := fun x hx => List.mem_takeWhile_imp hx
      rw [List.append_assoc]
      exact stripOpsRun_all_append htake hsp
        (by rw [List.takeWhile_cons, if_pos hop]; simp) ha
    · simp only [if_neg hop, List.nil_append]
      exact hstrip

/-- Stripping an updated version string `leadOps v ++ A` gives back `A`
whenever `A` has no leading operator or whitespace character. -/
theorem replaceLeadingOps_leadOps_append {v A : String}
    (hA : noLeadOpSpace A = true) :
    replaceLeadingOps (leadOps v ++ A) = A := by
  unfold replaceLeadingOps leadOps at *
  rw [string_mk_append]
  have hdata : ((⟨leadOpsRun v.data ++ A.data⟩ : String)).data =
      leadOpsRun v.data ++ A.data := rfl
  have ha : A.data = [] ∨
      ∀ c, A.data.head? = some c → (isOpChar c || isJsSpace c) = false := by
    unfold noLeadOpSpace at hA
    cases hAd : A.data with
    | nil => exact Or.inl rfl
    | cons c cs =>
      right
      intro x hx
      rw [hAd] at hA
      simp only [List.head?_cons, Option.some.injEq] at hx
      subst hx
      simpa using hA
  rw [hdata, stripOpsRun_leadOpsRun_append ha]

theorem string_data_eq {s t : String} (h : s.data = t.data) : s = t :=
  congrArg String.mk h

theorem string_append_right_ne {a b c : String} (h : b ≠ c) : a ++ b ≠ a ++ c := by
  intro hc
  apply h
  apply string_data_eq
  have : (a ++ b).data = (a ++ c).data := by rw [hc]
  rw [String.data_append, String.data_append] at this
  exact List.append_cancel_left this

/-! ## Symmetry of the semver comparison -/

theorem ordering_then_swap (o1 o2 : Ordering) :
    (o1.then o2).swap = o1.swap.then o2.swap := by
  cases o1 <;> rfl

theorem cmpNat_swap (a b : Nat) : cmpNat a b = (cmpNat b a).swap := by
  unfold cmpNat
  rcases Nat.lt_trichotomy a b with h | h | h
  · rw [if_pos h, if_neg (Nat.lt_asymm h), if_pos h]
    rfl
  · subst h
    rw [if_neg (Nat.lt_irrefl a), if_neg (Nat.lt_irrefl a)]
    rfl
  · rw [if_neg (Nat.lt_asymm h), if_pos h, if_pos h]
    rfl

theorem cmpCharList_swap (a b : List Char) :
    cmpCharList a b = (cmpCharList b a).swap := by
  induction a generalizing b with
  | nil => cases b <;> rfl
  | cons c cs ih =>
    cases b with
    | nil => rfl
    | cons d ds =>
      simp only [cmpCharList]
      rcases Nat.lt_trichotomy c.toNat d.toNat with h | h | h
      · rw [if_pos h, if_neg (Nat.lt_asymm h), if_pos h]
        rfl
      · rw [h, if_neg (Nat.lt_irrefl _), if_neg (Nat.lt_irrefl _),
          if_neg (Nat.lt_irrefl _), if_neg (Nat.lt_irrefl _)]
        exact ih ds
      · rw [if_neg (Nat.lt_asymm h), if_pos h, if_pos h]
        rfl

theorem compareIdentStr_swap (s t : String) :
    compareIdentStr s t = (compareIdentStr t s).swap := by
  unfold compareIdentStr
  by_cases hs : s.data.all (·.isDigit) = true <;>
    by_cases ht : t.data.all (·.isDigit) = true
  · rw [if_pos hs, if_pos ht, if_pos ht, if_pos hs]
    exact cmpNat_swap _ _
  · rw [if_pos hs, if_neg ht, if_neg ht, if_pos hs]
    rfl
  · rw [if_neg hs, if_pos ht, if_pos ht, if_neg hs]
    rfl
  · rw [if_neg hs, if_neg ht, if_neg ht, if_neg hs]
    exact cmpCharList_swap _ _

theorem cmpPreLists_swap (a b : List String) :
    cmpPreLists a b = (cmpPreLists b a).swap := by
  induction a generalizing b with
  | nil => cases b <;> rfl
  | cons x xs ih =>
    cases b with
    | nil => rfl
    | cons y ys =>
      simp only [cmpPreLists]
      by_cases h : x = y
      · subst h
        simp [ih ys]
      · rw [if_neg h, if_neg (fun hc => h hc.symm)]
        exact compareIdentStr_swap x y

theorem comparePre_swap (a b : List String) :
    comparePre a b = (comparePre b a).swap := by
  unfold comparePre
  cases ha : a.isEmpty <;> cases hb : b.isEmpty <;>
    simp only [ha, hb, Bool.not_true, Bool.not_false, Bool.false_and,
      Bool.true_and, Bool.and_false, Bool.and_true, if_true, if_false,
      Ordering.swap]
  · exact cmpPreLists_swap a b
  all_goals rfl

theorem compareMain_swap (a b : SemVer) :
    compareMain a b = (compareMain b a).swap := by
  unfold compareMain
  rw [ordering_then_swap, ordering_then_swap, ← cmpNat_swap, ← cmpNat_swap,
    ← cmpNat_swap]

theorem compareSemVer_swap (a b : SemVer) :
    compareSemVer a b = (compareSemVer b a).swap := by
  unfold compareSemVer
  rw [ordering_then_swap, ← compareMain_swap, ← comparePre_swap]

theorem diffFields_comm (v1 v2 high low : SemVer) :
    diffFields v1 v2 high low = diffFields v2 v1 high low := by
  unfold diffFields
  refine if_congr Iff.rfl rfl ?_
  exact if_congr ne_comm rfl (if_congr ne_comm rfl (if_congr ne_comm rfl rfl))

theorem semverDiff_comm (a b : SemVer) : semverDiff a b = semverDiff b a := by
  unfold semverDiff
  have hsw := compareSemVer_swap a b
  cases h : compareSemVer b a with
  | eq =>
    rw [h] at hsw
    rw [hsw]
    simp [Ordering.swap]
  | lt =>
    rw [h] at hsw
    rw [hsw]
    simp [Ordering.swap]
    exact diffFields_comm a b a b
  | gt =>
    rw [h] at hsw
    rw [hsw]
    simp [Ordering.swap]
    exact diffFields_comm a b b a

/-! ## Lemmas about updateDependencies -/

theorem list_map_id_of {α : Type} {f : α → α} {l : List α}
    (h : ∀ x ∈ l, f x = x) : l.map f = l := by
  induction l with
  | nil => rfl
  | cons x xs ih =>
    rw [List.map_cons, h x (List.mem_cons_self x xs),
      ih (fun y hy => h y (List.mem_cons_of_mem x hy))]

theorem string_append_cancel_left {a b c : String} (h : a ++ b = a ++ c) :
    b = c := by
  apply string_data_eq
  have hd := congrArg String.data h
  rw [String.data_append, String.data_append] at hd
  exact List.append_cancel_left hd

/-- In dry-run mode an entry is never rewritten. -/
theorem updEntry_dry (appDeps : List (String × String)) (e : String × String) :
    updEntry true appDeps e = e := by
  unfold updEntry
  by_cases hws : jsStartsWith e.2 "workspace:" = true
  · rw [if_pos hws]
  · rw [if_neg hws]
    by_cases ht : optTruthy (jlookup appDeps e.1) = true
    · rw [if_pos ht]
      by_cases heq : replaceLeadingOps e.2 =
          replaceLeadingOps ((jlookup appDeps e.1).getD "")
      · rw [if_pos heq]
      · rw [if_neg heq, if_pos rfl]
    · rw [if_neg ht]

/-- A workspace-protocol entry is left alone. -/
theorem updEntry_workspace (dryRun : Bool) (appDeps : List (String × String))
    (e : String × String) (hws : jsStartsWith e.2 "workspace:" = true) :
    updEntry dryRun appDeps e = e := by
  unfold updEntry
  rw [if_pos hws]

/-- A workspace-protocol entry produces no update record. -/
theorem updRecord_workspace (appDeps : List (String × String))
    (pkgName tyName : String) (e : String × String)
    (hws : jsStartsWith e.2 "workspace:" = true) :
    updRecord appDeps pkgName tyName e = none := by
  unfold updRecord
  rw [if_pos hws]

/-- Exact characterisation of a pushed update record. -/
theorem updRecord_some {appDeps : List (String × String)}
    {pkgName tyName : String} {e : String × String} {u : DependencyUpdate}
    (h : updRecord appDeps pkgName tyName e = some u) :
    jsStartsWith e.2 "workspace:" = false ∧
    ∃ w, jlookup appDeps e.1 = some w ∧ w ≠ "" ∧
      replaceLeadingOps e.2 ≠ replaceLeadingOps w ∧
      u = ⟨pkgName, e.1, e.2, leadOps e.2 ++ replaceLeadingOps w, tyName⟩ := by
  unfold updRecord at h
  by_cases hws : jsStartsWith e.2 "workspace:" = true
  · rw [if_pos hws] at h
    simp at h
  · rw [if_neg hws] at h
    refine ⟨by simpa using hws, ?_⟩
    by_cases ht : optTruthy (jlookup appDeps e.1) = true
    · rw [if_pos ht] at h
      cases hl : jlookup appDeps e.1 with
      | none => rw [hl] at ht; simp [optTruthy] at ht
      | some w =>
        have hw : w ≠ "" := by
          rw [hl] at ht; simpa [optTruthy] using ht
        rw [hl] at h
        by_cases heq : replaceLeadingOps e.2 = replaceLeadingOps w
        · rw [if_pos (by simpa using heq)] at h
          simp at h
        · rw [if_neg (by simpa using heq)] at h
          refine ⟨w, rfl, hw, heq, ?_⟩
          simp only [Option.some.injEq] at h
          simpa using h.symm
    · rw [if_neg ht] at h
      simp at h

/-- Converse: the conditions force the record. -/
theorem updRecord_eq_some (appDeps : List (String × String))
    (pkgName tyName : String) (e : String × String) (w : String)
    (hws : jsStartsWith e.2 "workspace:" = false)
    (hl : jlookup appDeps e.1 = some w) (hw : w ≠ "")
    (heq : replaceLeadingOps e.2 ≠ replaceLeadingOps w) :
    updRecord appDeps pkgName tyName e =
      some ⟨pkgName, e.1, e.2, leadOps e.2 ++ replaceLeadingOps w, tyName⟩ := by
  unfold updRecord
  rw [if_neg (by simp [hws]), if_pos (by simp [optTruthy, hl, hw]), hl]
  rw [if_neg (by simpa using heq)]
  rfl

/-- The `to` of every pushed record differs from its `from`. -/
theorem updRecord_toV_ne {appDeps : List (String × String)}
    {pkgName tyName : String} {e : String × String} {u : DependencyUpdate}
    (h : updRecord appDeps pkgName tyName e = some u) : u.toV ≠ u.fromV := by
  obtain ⟨-, w, -, -, heq, rfl⟩ := updRecord_some h
  show leadOps e.2 ++ replaceLeadingOps w ≠ e.2
  intro hc
  have h2 : leadOps e.2 ++ replaceLeadingOps w =
      leadOps e.2 ++ replaceLeadingOps e.2 :=
    hc.trans (leadOps_append_strip e.2).symm
  exact heq (string_append_cancel_left h2).symm

/-- After an apply-mode pass, re-processing an entry yields no record,
provided every version in the root map strips to a string with no
leading operator or whitespace character. -/
theorem updRecord_second_none (appDeps : List (String × String))
    (pkgName tyName : String) (e : String × String)
    (hA : ∀ k w, jlookup appDeps k = some w →
      noLeadOpSpace (replaceLeadingOps w) = true) :
    updRecord appDeps pkgName tyName (updEntry false appDeps e) = none := by
  by_cases hws : jsStartsWith e.2 "workspace:" = true
  · rw [updEntry_workspace false appDeps e hws,
      updRecord_workspace appDeps pkgName tyName e hws]
  · rw [updEntry, if_neg hws]
    by_cases ht : optTruthy (jlookup appDeps e.1) = true
    · rw [if_pos ht]
      by_cases heq : replaceLeadingOps e.2 =
          replaceLeadingOps ((jlookup appDeps e.1).getD "")
      · rw [if_pos heq]
        unfold updRecord
        rw [if_neg hws, if_pos ht, if_pos heq]
      · rw [if_neg heq]
        rw [if_neg (by simp)]
        cases hl : jlookup appDeps e.1 with
        | none => rw [hl] at ht; simp [optTruthy] at ht
        | some w =>
          have ht' : optTruthy (some w) = true := hl ▸ ht
          show updRecord appDeps pkgName tyName
            (e.1, leadOps e.2 ++ replaceLeadingOps w) = none
          by_cases hws2 :
              jsStartsWith (leadOps e.2 ++ replaceLeadingOps w) "workspace:" = true
          · exact updRecord_workspace _ _ _ _ hws2
          · unfold updRecord
            simp only [hl, Option.getD_some]
            rw [if_neg (by simpa using hws2), if_pos ht',
              if_pos (replaceLeadingOps_leadOps_append (hA e.1 w hl))]
    · rw [if_neg ht]
      unfold updRecord
      rw [if_neg hws, if_neg ht]

/-! ## Update-run membership helpers -/

theorem updated_manifest_mem {dryRun : Bool} {root m : Manifest}
    {others : List Manifest} (hm : m ∈ others) :
    (updateManifest dryRun (mergedDeps root) m).1 ∈
      (updateDependencies dryRun root others).1 := by
  unfold updateDependencies
  exact List.mem_map_of_mem _ hm

theorem record_mem_updates {dryRun : Bool} {root m : Manifest}
    {others : List Manifest} {sec : DepSection} {e : String × String}
    {u : DependencyUpdate} (hm : m ∈ others) (he : e ∈ secEntries m sec)
    (hrec : updRecord (mergedDeps root) m.name (secName sec) e = some u) :
    u ∈ (updateDependencies dryRun root others).2 := by
  unfold updateDependencies
  simp only
  rw [List.mem_flatten]
  refine ⟨(updateManifest dryRun (mergedDeps root) m).2,
    List.mem_map_of_mem _ hm, ?_⟩
  unfold updateManifest updateDependencySection
  simp only
  rw [List.mem_append, List.mem_append]
  cases sec with
  | dependencies =>
    exact Or.inl (Or.inl (List.mem_filterMap.mpr ⟨e, he, hrec⟩))
  | devDependencies =>
    exact Or.inl (Or.inr (List.mem_filterMap.mpr ⟨e, he, hrec⟩))
  | peerDependencies =>
    exact Or.inr (List.mem_filterMap.mpr ⟨e, he, hrec⟩)

theorem updates_mem_record {dryRun : Bool} {root : Manifest}
    {others : List Manifest} {u : DependencyUpdate}
    (hu : u ∈ (updateDependencies dryRun root others).2) :
    ∃ m ∈ others, ∃ sec : DepSection, ∃ e ∈ secEntries m sec,
      updRecord (mergedDeps root) m.name (secName sec) e = some u := by
  unfold updateDependencies at hu
  simp only at hu
  rw [List.mem_flatten] at hu
  obtain ⟨l, hl, hul⟩ := hu
  obtain ⟨m, hm, rfl⟩ := List.mem_map.mp hl
  refine ⟨m, hm, ?_⟩
  unfold updateManifest updateDependencySection at hul
  simp only at hul
  rw [List.mem_append, List.mem_append] at hul
  rcases hul with (h | h) | h
  · exact ⟨.dependencies, List.mem_filterMap.mp h⟩
  · exact ⟨.devDependencies, List.mem_filterMap.mp h⟩
  · exact ⟨.peerDependencies, List.mem_filterMap.mp h⟩

/-! ## Claim theorems -/

/-- C6: when `updateDependencies` runs with dryRun enabled, no manifest
is mutated or written: every input manifest is unchanged after the
run. -/
theorem c6_dryRun_invariance (root : Manifest) (others : List Manifest) :
    (updateDependencies true root others).1 = others := by
  unfold updateDependencies
  show others.map _ = others
  apply list_map_id_of
  intro m _
  obtain ⟨n, d1, d2, d3⟩ := m
  show (updateManifest true (mergedDeps root) ⟨n, d1, d2, d3⟩).1 = ⟨n, d1, d2, d3⟩
  unfold updateManifest updateDependencySection
  simp only
  rw [list_map_id_of (fun e _ => updEntry_dry (mergedDeps root) e),
    list_map_id_of (fun e _ => updEntry_dry (mergedDeps root) e),
    list_map_id_of (fun e _ => updEntry_dry (mergedDeps root) e)]

/-- C7: version-pair classification is symmetric: for all raw version
strings `a` and `b`, `compareDependencyVersions a b =
compareDependencyVersions b a`. -/
theorem c7_classification_symm (a b : String) :
    compareDependencyVersions a b = compareDependencyVersions b a := by
  unfold compareDependencyVersions
  by_cases h1 : optTruthy (getSemverVersion a) = false
  · rw [if_pos (Or.inl h1), if_pos (Or.inr h1)]
  · by_cases h2 : optTruthy (getSemverVersion b) = false
    · rw [if_pos (Or.inr h2), if_pos (Or.inl h2)]
    · rw [if_neg (by tauto), if_neg (by tauto)]
      cases hp1 : parseSemver ((getSemverVersion a).getD "") with
      | none =>
        cases hp2 : parseSemver ((getSemverVersion b).getD "") with
        | none => rfl
        | some s2 => rfl
      | some s1 =>
        cases hp2 : parseSemver ((getSemverVersion b).getD "") with
        | none => rfl
        | some s2 =>
          show (semverDiff s1 s2).getD "unknown" =
            (semverDiff s2 s1).getD "unknown"
          rw [semverDiff_comm]

/-- C8: whenever either raw version string fails to normalize,
`compareDependencyVersions` returns `"unknown"`, never a numeric
category, and no exception escapes (the embedding is total). -/
theorem c8_unparsable_unknown (a b : String)
    (h : getSemverVersion a = none ∨ getSemverVersion b = none) :
    compareDependencyVersions a b = "unknown" := by
  unfold compareDependencyVersions
  rcases h with h | h
  · rw [if_pos (Or.inl (by rw [h]; rfl))]
  · rw [if_pos (Or.inr (by rw [h]; rfl))]

/-- C8 witness: `"latest"` against `"^2.0.0"` classifies as unknown. -/
theorem c8_unparsable_unknown_witness :
    getSemverVersion "latest" = none ∧
    compareDependencyVersions "latest" "^2.0.0" = "unknown" :=
  ⟨by decide, c8_unparsable_unknown "latest" "^2.0.0" (Or.inl (by decide))⟩

/-- C9: for raw versions that are not workspace declarations, `"*"` or
`"latest"`, `getSemverVersion` strips one leading run of range-operator
characters plus following whitespace and returns the remainder exactly
when it is a valid semantic version, `none` otherwise, without
throwing. -/
theorem c9_normalizer_strips (v : String)
    (h1 : jsStartsWith v "workspace:" = false) (h2 : v ≠ "*")
    (h3 : v ≠ "latest") :
    getSemverVersion v =
      if semverValid (replaceLeadingOps v) then some (replaceLeadingOps v)
      else none := by
  unfold getSemverVersion
  rw [if_neg (by simp [h1]), if_neg (by simp [h2, h3])]

/-- C9 witness: `"^1.2.3"` normalizes to `"1.2.3"`. -/
theorem c9_normalizer_strips_witness :
    getSemverVersion "^1.2.3" = some "1.2.3" :=
  (c9_normalizer_strips "^1.2.3" (by decide) (by decide) (by decide)).trans
    (by decide)

/-- C10: the merged root map consulted by `updateDependencies` gives
`peerDependencies` precedence over `devDependencies`, which takes
precedence over `dependencies`, for every dependency name. -/
theorem c10_merged_precedence (root : Manifest) (d : String) :
    (∀ w, jlookup root.peerDependencies d = some w →
      jlookup (mergedDeps root) d = some w) ∧
    (jlookup root.peerDependencies d = none →
      (∀ w, jlookup root.devDependencies d = some w →
        jlookup (mergedDeps root) d = some w) ∧
      (jlookup root.devDependencies d = none →
        jlookup (mergedDeps root) d = jlookup root.dependencies d)) := by
  unfold mergedDeps
  refine ⟨?_, ?_⟩
  · intro w hw
    rw [jlookup_spread, hw]
  · intro hp
    refine ⟨?_, ?_⟩
    · intro w hw
      rw [jlookup_spread, hp, jlookup_spread, hw]
    · intro hd
      rw [jlookup_spread, hp, jlookup_spread, hd]

/-- C10 witness: with the same name in all three root sections, the
peer value wins in the merged map. -/
theorem c10_merged_precedence_witness :
    jlookup (Manifest.mk "root" [("d", "1.0.0")] [("d", "2.0.0")]
      [("d", "3.0.0")]).peerDependencies "d" = some "3.0.0" ∧
    jlookup (mergedDeps (Manifest.mk "root" [("d", "1.0.0")] [("d", "2.0.0")]
      [("d", "3.0.0")])) "d" = some "3.0.0" :=
  ⟨by decide,
   (c10_merged_precedence (Manifest.mk "root" [("d", "1.0.0")]
     [("d", "2.0.0")] [("d", "3.0.0")]) "d").1 "3.0.0" (by decide)⟩

/-- C1 counterexample: the root declares `d` solely in its
devDependencies.  A package declaring `d` is NOT reported missing, and
for a package not declaring `d` the dependency IS reported as extra in
root — contradicting the claim that the root baseline excludes the
root's devDependencies. -/
theorem c1_root_devDeps_cex :
    jlookup (Manifest.mk "root" [] [("d", "1.0.0")] []).dependencies "d" =
      none ∧
    jlookup (Manifest.mk "root" [] [("d", "1.0.0")] []).peerDependencies "d" =
      none ∧
    jlookup (Manifest.mk "root" [] [("d", "1.0.0")] []).devDependencies "d" =
      some "1.0.0" ∧
    (packageMissingInfo (Manifest.mk "root" [] [("d", "1.0.0")] [])
      [Manifest.mk "P" [("d", "1.0.0")] [] []]
      (Manifest.mk "P" [("d", "1.0.0")] [] [])).missing = [] ∧
    (packageMissingInfo (Manifest.mk "root" [] [("d", "1.0.0")] [])
      [Manifest.mk "Q" [("x", "1.0.0")] [] []]
      (Manifest.mk "Q" [("x", "1.0.0")] [] [])).extraDeps =
      [("d", "1.0.0")] := by
  decide

/-- C1 (amended): the root baseline of `checkMissingDependencies` is
the merged map of the root's dependencies, devDependencies AND
peerDependencies; a dependency with a truthy entry there (in
particular, one declared with a nonempty version solely in the root's
devDependencies) is never reported missing for any package. -/
theorem c1_root_baseline_includes_devDeps (root p : Manifest)
    (others : List Manifest) (d w : String)
    (hdev : jlookup root.devDependencies d = some w) (hw : w ≠ "")
    (hpeer : jlookup root.peerDependencies d = none) :
    ∀ v, (d, v) ∉ (packageMissingInfo root others p).missing := by
  intro v hm
  have htruthy : optTruthy (jlookup (mergedDeps root) d) = true := by
    unfold mergedDeps
    rw [jlookup_spread, hpeer, jlookup_spread, hdev]
    simpa [optTruthy] using hw
  unfold packageMissingInfo at hm
  simp only [List.mem_filter] at hm
  obtain ⟨-, hcond⟩ := hm
  simp [htruthy] at hcond

/-- C1 witness: instantiation of the amended theorem at the concrete
counterexample input. -/
theorem c1_root_baseline_includes_devDeps_witness :
    jlookup (Manifest.mk "root" [] [("d", "1.0.0")] []).devDependencies "d" =
      some "1.0.0" ∧
    ("d", "1.0.0") ∉ (packageMissingInfo
      (Manifest.mk "root" [] [("d", "1.0.0")] [])
      [Manifest.mk "P" [("d", "1.0.0")] [] []]
      (Manifest.mk "P" [("d", "1.0.0")] [] [])).missing :=
  ⟨by decide,
   c1_root_baseline_includes_devDeps
     (Manifest.mk "root" [] [("d", "1.0.0")] [])
     (Manifest.mk "P" [("d", "1.0.0")] [] [])
     [Manifest.mk "P" [("d", "1.0.0")] [] []]
     "d" "1.0.0" (by decide) (by decide) (by decide) "1.0.0"⟩

/-- C2 counterexample.  First input: the root declares `lodash` only in
devDependencies, so the spec's root dependency set (dependencies ∪
peerDependencies) does not contain it, yet a package's peer declaration
of `lodash` is not reported missing.  Second input: a peer declaration
with an empty version string (falsy in JavaScript) of a workspace
package is not reported missing even though the root has no entry at
all. -/
theorem c2_peer_missing_cex :
    jlookup (Manifest.mk "P" [] [] [("lodash", "^4.17.21")]).peerDependencies
      "lodash" = some "^4.17.21" ∧
    jlookup (Manifest.mk "root" [] [("lodash", "^4.17.21")] []).dependencies
      "lodash" = none ∧
    jlookup (Manifest.mk "root" [] [("lodash", "^4.17.21")]
      []).peerDependencies "lodash" = none ∧
    (packageMissingInfo (Manifest.mk "root" [] [("lodash", "^4.17.21")] [])
      [Manifest.mk "P" [] [] [("lodash", "^4.17.21")]]
      (Manifest.mk "P" [] [] [("lodash", "^4.17.21")])).missing = [] ∧
    jlookup (Manifest.mk "P2" [] [] [("w", "")]).peerDependencies "w" =
      some "" ∧
    (packageMissingInfo (Manifest.mk "root" [] [] [])
      [Manifest.mk "P2" [] [] [("w", "")], Manifest.mk "w" [] [] []]
      (Manifest.mk "P2" [] [] [("w", "")])).missing = [] := by
  decide

/-- C2 (amended): a dependency declared in a package's peerDependencies
with a nonempty version string is reported in that package's missing
list whenever the root's MERGED map (dependencies, devDependencies and
peerDependencies) has no truthy entry for it, regardless of
`shouldIncludeDependency`. -/
theorem c2_peer_always_missing (root p : Manifest) (others : List Manifest)
    (d v : String) (hpeer : jlookup p.peerDependencies d = some v)
    (hv : v ≠ "") (hroot : optTruthy (jlookup (mergedDeps root) d) = false) :
    (d, v) ∈ (packageMissingInfo root others p).missing := by
  unfold packageMissingInfo
  simp only [List.mem_filter]
  refine ⟨mem_spread_right p.dependencies hpeer, ?_⟩
  have h1 : optTruthy (jlookup p.peerDependencies d) = true := by
    rw [hpeer]
    simpa [optTruthy] using hv
  simp [hroot, h1]

/-- C2 witness: a peer-declared `lodash` absent from the root is
reported missing. -/
theorem c2_peer_always_missing_witness :
    jlookup (Manifest.mk "P" [] [] [("lodash", "^4.17.21")]).peerDependencies
      "lodash" = some "^4.17.21" ∧
    ("lodash", "^4.17.21") ∈ (packageMissingInfo (Manifest.mk "root" [] [] [])
      [Manifest.mk "P" [] [] [("lodash", "^4.17.21")]]
      (Manifest.mk "P" [] [] [("lodash", "^4.17.21")])).missing :=
  ⟨by decide,
   c2_peer_always_missing (Manifest.mk "root" [] [] [])
     (Manifest.mk "P" [] [] [("lodash", "^4.17.21")])
     [Manifest.mk "P" [] [] [("lodash", "^4.17.21")]]
     "lodash" "^4.17.21" (by decide) (by decide) (by decide)⟩

/-- C3 counterexample: `"*"` is a workspace declaration for
`isWorkspaceDep`, but `updateDependencies` only skips versions starting
with `"workspace:"`: a `"*"` entry produces an edit (to the root's bare
version number) in both modes and is rewritten in apply mode. -/
theorem c3_star_updated_cex :
    isWorkspaceDep "*" = true ∧
    (updateDependencies false (Manifest.mk "root" [("d", "^1.2.0")] [] [])
      [Manifest.mk "P" [("d", "*")] [] []]).2 =
      [DependencyUpdate.mk "P" "d" "*" "1.2.0" "dependencies"] ∧
    (updateDependencies false (Manifest.mk "root" [("d", "^1.2.0")] [] [])
      [Manifest.mk "P" [("d", "*")] [] []]).1 =
      [Manifest.mk "P" [("d", "1.2.0")] [] []] ∧
    (updateDependencies true (Manifest.mk "root" [("d", "^1.2.0")] [] [])
      [Manifest.mk "P" [("d", "*")] [] []]).2 =
      [DependencyUpdate.mk "P" "d" "*" "1.2.0" "dependencies"] := by
  decide

/-- C3 (amended): only entries whose raw version starts with
`"workspace:"` are exempt from updating: such an entry survives
unchanged in the processed manifest in both modes, and no emitted edit
has it as its source; a bare `"*"` is not exempt. -/
theorem c3_workspace_protocol_skipped (dryRun : Bool) (root : Manifest)
    (others : List Manifest) (m : Manifest) (hm : m ∈ others)
    (sec : DepSection) (d v : String) (hmem : (d, v) ∈ secEntries m sec)
    (hws : jsStartsWith v "workspace:" = true) :
    (d, v) ∈ secEntries (updateManifest dryRun (mergedDeps root) m).1 sec ∧
    (updateManifest dryRun (mergedDeps root) m).1 ∈
      (updateDependencies dryRun root others).1 ∧
    ∀ u ∈ (updateDependencies dryRun root others).2, u.fromV ≠ v := by
  refine ⟨?_, updated_manifest_mem hm, ?_⟩
  · have hfix : updEntry dryRun (mergedDeps root) (d, v) = (d, v) :=
      updEntry_workspace dryRun (mergedDeps root) (d, v) hws
    cases sec <;>
      exact List.mem_map.mpr ⟨(d, v), hmem, hfix⟩
  · intro u hu
    obtain ⟨m', -, sec', e, -, hrec⟩ := updates_mem_record hu
    obtain ⟨hwsf, w, -, -, -, rfl⟩ := updRecord_some hrec
    show e.2 ≠ v
    intro hc
    rw [hc] at hwsf
    rw [hws] at hwsf
    exact absurd hwsf (by simp)

/-- C3 witness: a `workspace:*` entry is preserved and never the source
of an edit. -/
theorem c3_workspace_protocol_skipped_witness :
    jsStartsWith "workspace:*" "workspace:" = true ∧
    ("internal", "workspace:*") ∈ secEntries
      (updateManifest false
        (mergedDeps (Manifest.mk "root" [("internal", "1.0.0")] [] []))
        (Manifest.mk "P" [("internal", "workspace:*")] [] [])).1
      DepSection.dependencies :=
  ⟨by decide,
   (c3_workspace_protocol_skipped false
     (Manifest.mk "root" [("internal", "1.0.0")] [] [])
     [Manifest.mk "P" [("internal", "workspace:*")] [] []]
     (Manifest.mk "P" [("internal", "workspace:*")] [] [])
     (List.mem_singleton.mpr rfl) DepSection.dependencies
     "internal" "workspace:*" (by decide) (by decide)).1⟩

/-- C4: for a declared non-workspace dependency that the root also
declares (truthy) with a different cleaned version number, the run
emits exactly the edit that keeps the declaring package's operator
run and substitutes the root's cleaned number; moreover every emitted
edit's new string differs from its raw source string. -/
theorem c4_operator_preserved (dryRun : Bool) (root : Manifest)
    (others : List Manifest) (m : Manifest) (hm : m ∈ others)
    (sec : DepSection) (d v w : String)
    (hmem : (d, v) ∈ secEntries m sec)
    (hws : jsStartsWith v "workspace:" = false)
    (hroot : jlookup (mergedDeps root) d = some w) (hw : w ≠ "")
    (hdiff : replaceLeadingOps v ≠ replaceLeadingOps w) :
    (DependencyUpdate.mk m.name d v (leadOps v ++ replaceLeadingOps w)
      (secName sec)) ∈ (updateDependencies dryRun root others).2 ∧
    leadOps v ++ replaceLeadingOps w ≠ v ∧
    ∀ u ∈ (updateDependencies dryRun root others).2, u.toV ≠ u.fromV := by
  refine ⟨?_, ?_, ?_⟩
  · exact record_mem_updates hm hmem
      (updRecord_eq_some (mergedDeps root) m.name (secName sec) (d, v) w
        hws hroot hw hdiff)
  · intro hc
    have h2 : leadOps v ++ replaceLeadingOps w =
        leadOps v ++ replaceLeadingOps v :=
      hc.trans (leadOps_append_strip v).symm
    exact hdiff (string_append_cancel_left h2).symm
  · intro u hu
    obtain ⟨m', -, sec', e, -, hrec⟩ := updates_mem_record hu
    exact updRecord_toV_ne hrec

/-- C4 witness: scenario D — root `axios ^1.2.0`, package `axios
~1.0.0` yields the edit `~1.0.0 → ~1.2.0`. -/
theorem c4_operator_preserved_witness :
    (DependencyUpdate.mk "P" "axios" "~1.0.0" "~1.2.0" "dependencies") ∈
      (updateDependencies false (Manifest.mk "root" [("axios", "^1.2.0")] [] [])
        [Manifest.mk "P" [("axios", "~1.0.0")] [] []]).2 := by
  have h := (c4_operator_preserved false
    (Manifest.mk "root" [("axios", "^1.2.0")] [] [])
    [Manifest.mk "P" [("axios", "~1.0.0")] [] []]
    (Manifest.mk "P" [("axios", "~1.0.0")] [] [])
    (List.mem_singleton.mpr rfl) DepSection.dependencies
    "axios" "~1.0.0" "^1.2.0" (by decide) (by decide) (by decide)
    (by decide) (by decide)).1
  exact (show (DependencyUpdate.mk "P" "axios" "~1.0.0"
    (leadOps "~1.0.0" ++ replaceLeadingOps "^1.2.0")
    (secName DepSection.dependencies)) =
    DependencyUpdate.mk "P" "axios" "~1.0.0" "~1.2.0" "dependencies"
    from by decide) ▸ h

/-- C5 counterexample: with the (degenerate but legal) root version
`"^ ^1.2.0"`, whose stripped form still begins with an operator
character, applying the edits once and re-running produces a further
nonempty edit list — the fixed point fails. -/
theorem c5_fixed_point_cex :
    (updateDependencies false (Manifest.mk "root" [("axios", "^ ^1.2.0")] [] [])
      ((updateDependencies false
        (Manifest.mk "root" [("axios", "^ ^1.2.0")] [] [])
        [Manifest.mk "P" [("axios", "~1.0.0")] [] []]).1)).2 ≠ [] := by
  decide

/-- C5 (amended): the planned edit list does not depend on the dry-run
flag (and the planner is a pure function of the manifests), and
applying the edits once reaches a fixed point — the second run plans
nothing — provided every version in the root's merged map strips to a
string that begins with neither a range-operator character nor
whitespace (true of every well-formed version range). -/
theorem c5_idempotent_updates (root : Manifest) (others : List Manifest)
    (h : ∀ p ∈ mergedDeps root, noLeadOpSpace (replaceLeadingOps p.2) = true) :
    (updateDependencies true root others).2 =
      (updateDependencies false root others).2 ∧
    (updateDependencies false root
      ((updateDependencies false root others).1)).2 = [] := by
  have hA : ∀ k w, jlookup (mergedDeps root) k = some w →
      noLeadOpSpace (replaceLeadingOps w) = true :=
    fun k w hk => h (k, w) (jlookup_mem hk)
  refine ⟨rfl, ?_⟩
  unfold updateDependencies
  simp only
  rw [List.flatten_eq_nil_iff]
  intro l hl
  obtain ⟨m', hm', rfl⟩ := List.mem_map.mp hl
  obtain ⟨m, -, rfl⟩ := List.mem_map.mp hm'
  obtain ⟨n, d1, d2, d3⟩ := m
  show (updateManifest false (mergedDeps root)
    (updateManifest false (mergedDeps root) ⟨n, d1, d2, d3⟩).1).2 = []
  unfold updateManifest updateDependencySection
  simp only
  rw [List.append_eq_nil, List.append_eq_nil]
  refine ⟨⟨?_, ?_⟩, ?_⟩ <;>
    (rw [List.filterMap_eq_nil_iff]
     intro e' he'
     obtain ⟨e, -, rfl⟩ := List.mem_map.mp he'
     exact updRecord_second_none (mergedDeps root) _ _ e hA)

/-- C5 witness: a normal root/package pair satisfies the side condition
and indeed reaches the fixed point after one application. -/
theorem c5_idempotent_updates_witness :
    (∀ p ∈ mergedDeps (Manifest.mk "root" [("react", "^17.0.2")] [] []),
      noLeadOpSpace (replaceLeadingOps p.2) = true) ∧
    (updateDependencies false (Manifest.mk "root" [("react", "^17.0.2")] [] [])
      ((updateDependencies false
        (Manifest.mk "root" [("react", "^17.0.2")] [] [])
        [Manifest.mk "P" [("react", "^18.0.0")] [] []]).1)).2 = [] :=
  ⟨by decide,
   (c5_idempotent_updates (Manifest.mk "root" [("react", "^17.0.2")] [] [])
     [Manifest.mk "P" [("react", "^18.0.0")] [] []] (by decide)).2⟩

end DepChecker
